import Mathlib

/-!
Verification of the `skforecast` recursive autoregressive forecaster
(`ForecasterAutoreg.py`) and its time-ordered fold splitter
(`model_selection.py`), via a shallow embedding.

Modelling conventions:
* Series values are rationals (`ℚ`); a pandas Series that may carry missing
  values (the input of `fit`) is a `List (Option ℚ)` where `none` stands for
  a missing value (`NaN`).  Windows and residuals, which are plain numeric
  data after validation, are `List ℚ`.
* Only range indexes are modelled.  `_preproces_y` replaces every index that
  is not a fixed-frequency `DatetimeIndex` by `RangeIndex(0, n, 1)`, so the
  numeric universe embedded here is closed under all preprocessing; the
  index metadata a fit records for it is `training_range = (0, n-1)` and an
  index step of `1`.
* The wrapped regression model is an external collaborator: a fitted
  regressor is a function `List ℚ → ℚ` from one feature row to one
  prediction, and training is a function
  `List (List ℚ) → List ℚ → (List ℚ → ℚ)` supplied as a parameter.
* The two places the class draws random samples
  (`np.random.choice(a, size=k, replace=...)`) are modelled by an oracle
  `pick : ℕ → ℕ` (resp. `ℕ → ℕ → ℕ` for the per-trial, per-step bootstrap
  draw) mapping the position in the sample to an arbitrary index into the
  sampled collection; every theorem below holds for every oracle.
* Python methods mutate `self` and raise exceptions; a method is embedded as
  a function returning the post-call state together with an optional error
  (`Forecaster × Option ForecastError`), or an `Except` when the state is
  untouched on every path.
-/

set_option maxRecDepth 10000

namespace Skforecast

/-- State of a `ForecasterAutoreg` instance: the fields assigned in
`__init__`.  `y_index_type`, `exog_type` and `exog_col_names` are not
carried: only range indexes and single-column numeric exogenous data are
modelled, so those fields hold no information here. -/
structure Forecaster where
  regressor : List ℚ → ℚ
  lags : List ℕ
  max_lag : ℕ
  window_size : ℕ
  y_index_freq : Option ℤ
  training_range : Option (ℕ × ℕ)
  last_window : Option (List ℚ)
  included_exog : Bool
  in_sample_residuals : Option (List ℚ)
  out_sample_residuals : Option (List ℚ)
  fitted : Bool

/-- The exceptions the embedded methods can raise.  Python raises bare
`Exception`s with messages (plus library errors such as the pandas
`ValueError` in `_create_lags` and the `AttributeError` on
`self.exog_shape` in `predict_interval`); here each raise site gets a
constructor. -/
inductive ForecastError where
  | missingValues
  | emptyIndex
  | lengthMismatch
  | createLagsFailed
  | notFitted
  | invalidSteps
  | exogMissing
  | exogUnexpected
  | exogTooShort
  | windowTooShort
  | noStoredWindow
  | noOutSampleResiduals
  | missingAttribute
  | typeError
  | bootFailed
  | invalidLags
  deriving DecidableEq

/-- `ForecasterAutoreg._create_lags`.  The source allocates a
`(n_splits, max_lag)` array, fills row `i` with `y[i : i+max_lag]` and the
target with `y[max_lag + i]`, then keeps the columns `X_data.iloc[:, -lags]`,
i.e. column `max_lag - k` for each configured lag `k` (the observation `k`
positions before the target).  Two failure modes of the source are modelled
as `none`:
* the `pd.DataFrame` constructor is given `max_lag` data columns but a
  `columns` list of length `len(lags)` (`[f"lag_.." for i in lags[::-1]]`),
  which raises `ValueError` whenever `len(lags) ≠ max_lag` (any sparse lag
  set, e.g. `lags=[2]`);
* `np.full` raises `ValueError` on a negative first dimension, i.e. when
  `len(y) < max_lag`. -/
def _create_lags (fc : Forecaster) (y : List ℚ) : Option (List (List ℚ) × List ℚ) :=
  if fc.lags.length ≠ fc.max_lag ∨ y.length < fc.max_lag then none
  else
    let n_splits := y.length - fc.max_lag
    let X_full := (List.range n_splits).map
      (fun i => (List.range fc.max_lag).map (fun j => y.getD (i + j) 0))
    let y_data := (List.range n_splits).map (fun i => y.getD (fc.max_lag + i) 0)
    let X_data := X_full.map (fun row => fc.lags.map (fun k => row.getD (fc.max_lag - k) 0))
    some (X_data, y_data)

/-- The attribute reset performed at the top of `fit` (source lines
285-295): every transient attribute is cleared before any validation runs.
`regressor`, `lags`, `max_lag` and `window_size` are untouched. -/
def resetTransient (fc : Forecaster) : Forecaster :=
  { fc with
    y_index_freq := none
    training_range := none
    last_window := none
    included_exog := false
    in_sample_residuals := none
    out_sample_residuals := none
    fitted := false }

/-- `np.random.choice(a=residuals, size=1000, replace=False)` applied when
more than 1000 residuals are present: the oracle `pick` chooses which 1000
entries survive. -/
def capResiduals (pick : ℕ → ℕ) (residuals : List ℚ) : List ℚ :=
  if 1000 < residuals.length then
    (List.range 1000).map (fun i => residuals.getD (pick i % residuals.length) 0)
  else residuals

/-- Tail of a successful `fit` (source lines 322-333): train the regressor,
set `fitted`, compute `residuals = y_train - regressor.predict(X_train)`,
cap them at 1000, and store the trailing `max_lag` target values as
`last_window`. -/
def finishFit (train : List (List ℚ) → List ℚ → (List ℚ → ℚ)) (pick : ℕ → ℕ)
    (fc : Forecaster) (X_train : List (List ℚ)) (y_train : List ℚ) : Forecaster :=
  let reg := train X_train y_train
  let residuals := (y_train.zip (X_train.map reg)).map (fun p => p.1 - p.2)
  { fc with
    regressor := reg
    fitted := true
    in_sample_residuals := some (capResiduals pick residuals)
    last_window := some (y_train.drop (y_train.length - fc.max_lag)) }

/-- The index metadata `fit` records right after validating `y` (source
lines 300-305): the training range over the reindexed series and its unit
step.  (`y.index[[0, -1]]` raises `IndexError` on an empty series, modelled
as `emptyIndex` in `fit` before this state is reached.) -/
def fitMeta (fc : Forecaster) (n : ℕ) : Forecaster :=
  { resetTransient fc with training_range := some (0, n - 1), y_index_freq := some 1 }

/-- `ForecasterAutoreg.fit`.  Mirrors the statement order of the source:
reset every transient attribute, check `y` for missing values (`_check_y`;
the non-Series type error is outside this typed embedding), record the
index metadata of the reindexed `y`, check the `exog` length, build the
training matrices and finish.  The returned pair is the post-call state of
`self` together with the raised error, if any. -/
def fit (train : List (List ℚ) → List ℚ → (List ℚ → ℚ)) (pick : ℕ → ℕ)
    (fc : Forecaster) (y : List (Option ℚ)) (exog : Option (List ℚ)) :
    Forecaster × Option ForecastError :=
  let fc1 := resetTransient fc
  if y.any (fun v => v.isNone) then (fc1, some .missingValues)
  else if y.length = 0 then (fc1, some .emptyIndex)
  else
    let yv := y.map (fun v => v.getD 0)
    let fc2 := fitMeta fc y.length
    match exog with
    | none =>
      match _create_lags fc2 yv with
      | none => (fc2, some .createLagsFailed)
      | some (X_train, y_train) => (finishFit train pick fc2 X_train y_train, none)
    | some e =>
      if e.length ≠ yv.length then (fc2, some .lengthMismatch)
      else
        let fc3 := { fc2 with included_exog := true }
        match _create_lags fc3 yv with
        | none => (fc3, some .createLagsFailed)
        | some (X_lags, y_train) =>
          let X_train := (X_lags.zip (e.drop fc3.max_lag)).map (fun p => p.1 ++ [p.2])
          (finishFit train pick fc3 X_train y_train, none)

/-- The recursive loop of `predict` (source lines 426-439).  The working
buffer starts as the full last window; each step reads the observations at
the configured lag offsets from the buffer's end
(`last_window_values[-self.lags]`, i.e. position `len - k` for lag `k`),
appends the current exogenous value when present, predicts one scalar, then
drops the buffer's first element and appends the prediction
(`np.append(last_window_values[1:], prediction)`).  The forecaster is
threaded through the recursion unchanged — the loop body only rebinds
locals, never assigns to `self`. -/
def predict_loop (fc : Forecaster) : ℕ → List ℚ → Option (List ℚ) → Forecaster × List ℚ
  | 0, _, _ => (fc, [])
  | Nat.succ s, buf, exog =>
    let lagX := fc.lags.map (fun k => buf.getD (buf.length - k) 0)
    let X := match exog with
             | some e => lagX ++ [e.getD 0 0]
             | none => lagX
    let p := fc.regressor X
    let rest := predict_loop fc s (buf.tail ++ [p]) (exog.map (fun e => e.tail))
    (rest.1, p :: rest.2)

/-- `ForecasterAutoreg.predict`.  The validation chain in source order:
not fitted, `steps < 1`, exogenous data required / unexpected / too short;
then every exogenous call that survives the length check raises: the
`_check_exog` call at source lines 397-401 passes the keyword `ref_shape`,
but the parameter of `_check_exog` is named `ref_col_names`, so Python
raises `TypeError` (modelled as `typeError`) before any prediction — no
exogenous `predict` call can succeed.  Finally a supplied `last_window`
must hold at least `max_lag` values.  With no supplied window the stored
one is used; a fitted forecaster always has one
(`self.last_window.to_numpy()` would raise `AttributeError` otherwise,
modelled as `noStoredWindow`).  Returns the post-call state (always the
input state — `predict` never assigns to `self`) and the predictions. -/
def predict (fc : Forecaster) (steps : ℕ) (last_window : Option (List ℚ))
    (exog : Option (List ℚ)) : Forecaster × Except ForecastError (List ℚ) :=
  if fc.fitted = false then (fc, .error .notFitted)
  else if steps = 0 then (fc, .error .invalidSteps)
  else if exog.isNone && fc.included_exog then (fc, .error .exogMissing)
  else if exog.isSome && !fc.included_exog then (fc, .error .exogUnexpected)
  else if (exog.map List.length).getD steps < steps then (fc, .error .exogTooShort)
  else if exog.isSome then (fc, .error .typeError)
  else
    match last_window with
    | some w =>
      if w.length < fc.max_lag then (fc, .error .windowTooShort)
      else
        let r := predict_loop fc steps w exog
        (r.1, .ok r.2)
    | none =>
      match fc.last_window with
      | some w =>
        let r := predict_loop fc steps w exog
        (r.1, .ok r.2)
      | none => (fc, .error .noStoredWindow)

/-- `ForecasterAutoreg.set_lags`.  The argument is either an `int`
(`lags = 1..n`) or a list; `min(lags) < 1` raises, and `min`/`max` of an
empty list raise `ValueError`.  Exactly `lags`, `max_lag` and `window_size`
are reassigned, both of the latter to `max(self.lags)`. -/
def set_lags (fc : Forecaster) (lags : ℕ ⊕ List ℕ) : Except ForecastError Forecaster :=
  match lags with
  | .inl k =>
    if k < 1 then .error .invalidLags
    else .ok { fc with lags := (List.range k).map (fun i => i + 1), max_lag := k, window_size := k }
  | .inr l =>
    if l.isEmpty then .error .invalidLags
    else if l.any (fun x => x < 1) then .error .invalidLags
    else .ok { fc with lags := l, max_lag := l.foldl max 0, window_size := l.foldl max 0 }

/-- `ForecasterAutoreg.set_out_sample_residuals`.  Incoming residuals are
capped at 1000 (random subsample via the oracle); with `append=False` or no
stored residuals they replace the store, otherwise they are appended into
the remaining `free_space = max(0, 1000 - len(stored))` slots, the excess
silently discarded (`residuals[:free_space]`). -/
def set_out_sample_residuals (pick : ℕ → ℕ) (fc : Forecaster) (residuals : List ℚ)
    (append : Bool) : Forecaster :=
  let residuals := capResiduals pick residuals
  if append = false ∨ fc.out_sample_residuals = none then
    { fc with out_sample_residuals := some residuals }
  else
    let stored := fc.out_sample_residuals.getD []
    let free_space := 1000 - stored.length
    if residuals.length < free_space then
      { fc with out_sample_residuals := some (stored ++ residuals) }
    else
      { fc with out_sample_residuals := some (stored ++ residuals.take free_space) }

/-- One step of np.percentile's default linear interpolation on an already
sorted array: at fractional position `pos`, interpolate between the entries
at `⌊pos⌋` and `⌊pos⌋ + 1`. -/
def interpAt (s : List ℚ) (pos : ℚ) : ℚ :=
  let i := (⌊pos⌋).toNat
  if i + 1 < s.length then
    s.getD i 0 + (pos - (i : ℚ)) * (s.getD (i + 1) 0 - s.getD i 0)
  else s.getD i 0

/-- `np.percentile(a, q)` with the default linear interpolation: sort
ascending and interpolate at position `q / 100 * (len - 1)`. -/
def percentile (q : ℚ) (l : List ℚ) : ℚ :=
  let s := List.insertionSort (· ≤ ·) l
  interpAt s (q / 100 * ((s.length : ℚ) - 1))

/-- The residual sample one bootstrap trial draws:
`np.random.choice(a=residuals, size=steps, replace=True)`, the oracle
choosing an index into `residuals` for every `(trial, step)` pair. -/
def sample_residuals_for (pick : ℕ → ℕ → ℕ) (residuals : List ℚ) (i steps : ℕ) : List ℚ :=
  (List.range steps).map (fun s => residuals.getD (pick i s % residuals.length) 0)

/-- One bootstrap trial of `_estimate_boot_interval` (source lines 533-547),
for the exogenous-free path: repeatedly call the public `predict` for a
single step on the trial's working window, add the trial's residual for
that step, record the perturbed value and slide the window with it.  An
exception from the inner `predict` propagates (`none`). -/
def boot_trial (fc : Forecaster) : ℕ → List ℚ → List ℚ → Option (List ℚ)
  | 0, _, _ => some []
  | Nat.succ s, sample, w =>
    match (predict fc 1 (some w) none).2 with
    | .error _ => none
    | .ok ps =>
      let pr := ps.headD 0 + sample.headD 0
      match boot_trial fc s sample.tail (w.tail ++ [pr]) with
      | none => none
      | some rest => some (pr :: rest)

/-- `ForecasterAutoreg._estimate_boot_interval` for the exogenous-free
path: run `n_boot` independent perturbed trials from a fresh copy of the
initial window, then take the two requested percentiles across trials,
per step.  `np.random.choice` on an empty residual collection and
`np.percentile` over zero trials raise, modelled as `none`. -/
def _estimate_boot_interval (pick : ℕ → ℕ → ℕ) (fc : Forecaster) (steps : ℕ)
    (last_window : List ℚ) (interval : ℚ × ℚ) (n_boot : ℕ)
    (in_sample_residuals : Bool) : Option (List (ℚ × ℚ)) :=
  let residuals := cond in_sample_residuals (fc.in_sample_residuals.getD [])
                   (fc.out_sample_residuals.getD [])
  if residuals.length = 0 ∨ n_boot = 0 then none
  else
    let trials := (List.range n_boot).map (fun i =>
      boot_trial fc steps (sample_residuals_for pick residuals i steps) last_window)
    if trials.any (fun t => t.isNone) then none
    else
      let cols := trials.map (fun t => t.getD [])
      some ((List.range steps).map (fun s =>
        let vals := cols.map (fun c => c.getD s 0)
        (percentile interval.1 vals, percentile interval.2 vals)))

/-- Tail of `predict_interval` once a working window is selected: point
predictions from `predict`, bands from `_estimate_boot_interval`, glued
per step as `(pred, lower_bound, upper_bound)`. -/
def predict_interval_go (pick : ℕ → ℕ → ℕ) (fc : Forecaster) (steps : ℕ) (w : List ℚ)
    (interval : ℚ × ℚ) (n_boot : ℕ) (in_s : Bool) :
    Except ForecastError (List (ℚ × ℚ × ℚ)) :=
  match (predict fc steps (some w) none).2 with
  | .error e => .error e
  | .ok preds =>
    match _estimate_boot_interval pick fc steps w interval n_boot in_s with
    | none => .error .bootFailed
    | some bands => .ok ((preds.zip bands).map (fun p => (p.1, p.2.1, p.2.2)))

/-- `ForecasterAutoreg.predict_interval`.  Validation in source order; note
that the exogenous branch of the source dereferences the nonexistent
attribute `self.exog_shape` (line 656) and therefore always raises
`AttributeError`, so only the `exog = None` path is reachable. -/
def predict_interval (pick : ℕ → ℕ → ℕ) (fc : Forecaster) (steps : ℕ)
    (last_window : Option (List ℚ)) (exog : Option (List ℚ)) (interval : ℚ × ℚ)
    (n_boot : ℕ) (in_sample_residuals : Bool) :
    Except ForecastError (List (ℚ × ℚ × ℚ)) :=
  if steps = 0 then .error .invalidSteps
  else if in_sample_residuals = false ∧ fc.out_sample_residuals = none then
    .error .noOutSampleResiduals
  else if exog.isNone && fc.included_exog then .error .exogMissing
  else if exog.isSome && !fc.included_exog then .error .exogUnexpected
  else if exog.isSome then .error .missingAttribute
  else
    match last_window with
    | some w =>
      if w.length < fc.max_lag then .error .windowTooShort
      else predict_interval_go pick fc steps w interval n_boot in_sample_residuals
    | none =>
      match fc.last_window with
      | some w => predict_interval_go pick fc steps w interval n_boot in_sample_residuals
      | none => .error .noStoredWindow

/-- `model_selection.time_series_spliter`.  A fold is
`((train_lo, train_hi), (test_lo, test_hi))` standing for the yielded
`(range(train_hi), range(test_lo, test_hi))`.  `steps = 0` raises
`ZeroDivisionError` and `initial_train_size > len(y)` raises, both
modelled as `none`; when `folds == 1` the generator returns without
yielding anything, even when a nonzero remainder exists. -/
def time_series_spliter (n initial_train_size steps : ℕ)
    (allow_incomplete_fold : Bool) : Option (List ((ℕ × ℕ) × (ℕ × ℕ))) :=
  if steps = 0 then none
  else if n < initial_train_size then none
  else
    let folds := (n - initial_train_size) / steps + 1
    let remainder := (n - initial_train_size) % steps
    if folds = 1 then some []
    else some ((List.range folds).filterMap (fun i =>
      if i < folds - 1 then
        some ((0, initial_train_size + i * steps),
              (initial_train_size + i * steps, initial_train_size + i * steps + steps))
      else if remainder ≠ 0 ∧ allow_incomplete_fold = true then
        some ((0, initial_train_size + i * steps), (initial_train_size + i * steps, n))
      else none))

/-- Well-formedness of a forecaster state, as established by `__init__`,
`set_lags` and `fit`: every lag is positive and at most `max_lag`, and a
fitted forecaster holds a stored window of at least `max_lag` values. -/
def WF (fc : Forecaster) : Prop :=
  (∀ k ∈ fc.lags, 1 ≤ k ∧ k ≤ fc.max_lag) ∧
  (fc.fitted = true → ∃ w, fc.last_window = some w ∧ fc.max_lag ≤ w.length)

/-- The usage procedure of claim C2: call `predict` for a single step `k`
times, after each call dropping the oldest value of the window and
appending the predicted value. -/
def reseeded_one_step_calls (fc : Forecaster) : ℕ → List ℚ → List ℚ
  | 0, _ => []
  | Nat.succ k, w =>
    match (predict fc 1 (some w) none).2 with
    | .ok ps =>
      let p := ps.headD 0
      p :: reseeded_one_step_calls fc k (w.tail ++ [p])
    | .error _ => []

/-- Whether an embedded call raised. -/
def isErr {α : Type} (x : Except ForecastError α) : Bool :=
  match x with
  | .error _ => true
  | .ok _ => false

/-! ### Concrete fixtures

Small concrete regressors, oracles and forecaster states used by the
closed evaluation theorems. -/

/-- A regressor that predicts `0` for every feature row. -/
def zeroReg : List ℚ → ℚ := fun _ => 0

/-- A training procedure producing `zeroReg` — the external model is a
black box, so any function of this type is a legitimate collaborator. -/
def zeroTrain : List (List ℚ) → List ℚ → (List ℚ → ℚ) := fun _ _ => zeroReg

/-- A sampling oracle that always picks index 0. -/
def pick0 : ℕ → ℕ := fun _ => 0

/-- A per-trial, per-step sampling oracle that always picks index 0. -/
def pick00 : ℕ → ℕ → ℕ := fun _ _ => 0

/-- `ForecasterAutoreg(regressor, lags=[1, 2])` straight out of the
constructor. -/
def fcDense : Forecaster :=
  { regressor := zeroReg
    lags := [1, 2]
    max_lag := 2
    window_size := 2
    y_index_freq := none
    training_range := none
    last_window := none
    included_exog := false
    in_sample_residuals := none
    out_sample_residuals := none
    fitted := false }

/-- `ForecasterAutoreg(regressor, lags=[2])`: a sparse lag set, `max_lag`
exceeds the number of configured lags. -/
def fcSparse : Forecaster := { fcDense with lags := [2] }

/-- A fitted state of `fcDense`, as left by a successful `fit` on a series
ending in `9, 10` with zero residuals. -/
def fcFit : Forecaster :=
  { fcDense with
    fitted := true
    last_window := some [9, 10]
    training_range := some (0, 4)
    y_index_freq := some 1
    in_sample_residuals := some [0, 0, 0] }

/-- `fcFit` as if it had been trained with exogenous data. -/
def fcFitExog : Forecaster := { fcFit with included_exog := true }

/-- A fitted single-lag forecaster whose regressor always predicts `0`,
with two stored zero in-sample residuals. -/
def fcOne : Forecaster :=
  { regressor := zeroReg
    lags := [1]
    max_lag := 1
    window_size := 1
    y_index_freq := none
    training_range := none
    last_window := some [0]
    included_exog := false
    in_sample_residuals := some [0, 0]
    out_sample_residuals := none
    fitted := true }

/-- `fcOne` with a constant nonzero residual collection `[1]` — zero
variance but nonzero value. -/
def fcOneConst : Forecaster := { fcOne with in_sample_residuals := some [1] }

/-- The state `set_lags(lags=[1, 3])` produces from `fcDense`. -/
def fcRelag : Forecaster :=
  { fcDense with lags := [1, 3], max_lag := 3, window_size := 3 }

/-- Both stored residual collections hold at most 1000 values. -/
def residualsLenOk (fc : Forecaster) : Prop :=
  (∀ l, fc.in_sample_residuals = some l → l.length ≤ 1000) ∧
  (∀ l, fc.out_sample_residuals = some l → l.length ≤ 1000)

/-- A forecaster with two stored out-of-sample residuals. -/
def fcStored : Forecaster := { fcDense with out_sample_residuals := some [1, 2] }

/-! ### Basic facts about the prediction loop -/

/-- The recursive prediction loop never touches the forecaster state: the
source's loop body only rebinds the local `last_window_values` (through
fresh arrays — `np.append` copies) and writes into the fresh `predictions`
series. -/
theorem predict_loop_fst (fc : Forecaster) :
    ∀ (n : ℕ) (buf : List ℚ) (exog : Option (List ℚ)),
      (predict_loop fc n buf exog).1 = fc
  | 0, _, _ => rfl
  | Nat.succ s, buf, exog => by
    simp only [predict_loop]
    exact predict_loop_fst fc s _ _

/-- A valid exogenous-free call of `predict` with a supplied window passes
every validation and runs the loop. -/
theorem predict_ok (fc : Forecaster) (steps : ℕ) (w : List ℚ)
    (h1 : fc.fitted = true) (h2 : fc.included_exog = false)
    (h3 : steps ≠ 0) (h4 : fc.max_lag ≤ w.length) :
    predict fc steps (some w) none = (fc, .ok (predict_loop fc steps w none).2) := by
  unfold predict
  rw [h1, h2]
  simp only [Option.isNone_none, Option.isSome_none, Bool.and_false, Bool.false_and,
    Option.map_none', Option.getD_none]
  rw [if_neg (by simp), if_neg h3, if_neg (by simp), if_neg (by simp),
    if_neg (by simp), if_neg (by simp), if_neg (by omega)]
  exact congrArg (fun x => (x, Except.ok (predict_loop fc steps w none).2))
    (predict_loop_fst fc steps w none)

/-! ### C6 — `predict` leaves the forecaster state unchanged -/

/-- C6: for every forecaster and every `predict` call — any `steps`, with
or without a supplied `last_window`, with or without exogenous data — the
post-call state equals the pre-call state: the stored `last_window`,
`in_sample_residuals` and `out_sample_residuals` (and every other
attribute) are untouched; only the local working buffer is rebound during
the recursive loop. -/
theorem C6_predict_preserves_state (fc : Forecaster) (steps : ℕ)
    (last_window exog : Option (List ℚ)) :
    (predict fc steps last_window exog).1 = fc := by
  unfold predict
  split_ifs <;> try rfl
  all_goals cases last_window with
  | some w =>
    simp only
    split_ifs <;> simp [predict_loop_fst]
  | none =>
    simp only
    cases fc.last_window <;> simp [predict_loop_fst]

/-! ### C1 — the lag-matrix construction -/

/-- C1 (code bug): on the sparse lag set `lags = [2]` (so `max_lag = 2`,
one configured lag) and the three-observation series `y = [1, 2, 3]`
(`n = 3 > m = 2`), `_create_lags` raises instead of returning the
`1 × 1` table `[[y[1]]]` with target `[y[2]]` demanded by the claim: the
source hands the `pd.DataFrame` constructor a `(1, 2)` data array together
with the single column label built from `self.lags`, which raises
`ValueError`.  The class documentation ("include only lags present in
`lags`", output shape `(samples, len(self.lags))`) promises exactly the
claimed behaviour, so the code, not the claim, is at fault. -/
theorem C1_create_lags_crashes_on_sparse_lags :
    _create_lags fcSparse [1, 2, 3] = none ∧
    fcSparse.lags = [2] ∧ fcSparse.max_lag = 2 := by
  refine ⟨by decide, rfl, rfl⟩

/-- For every lag configuration that survives the `pd.DataFrame`
constructor (`len(lags) = max_lag`, e.g. the dense sets produced by the
integer constructor) whose lags respect the constructor invariant
`1 <= k <= max_lag`, and every series with `n >= m`, the produced table has
the claimed shape and alignment: `n - m` rows, one column per configured
lag in configuration order, the column of lag `k` holding the observation
`k` positions before the target, and `y_target[i] = y[m + i]`.  (Not a
claim theorem: it documents that the C1 property does hold on the lag
sets the code accepts.) -/
theorem create_lags_dense_spec (fc : Forecaster) (y : List ℚ)
    (hlen : fc.lags.length = fc.max_lag) (hn : fc.max_lag ≤ y.length)
    (hlag : ∀ k ∈ fc.lags, 1 ≤ k ∧ k ≤ fc.max_lag) :
    ∃ X t, _create_lags fc y = some (X, t) ∧
      X.length = y.length - fc.max_lag ∧ t.length = y.length - fc.max_lag ∧
      (∀ i < y.length - fc.max_lag,
        t.getD i 0 = y.getD (fc.max_lag + i) 0 ∧
        (X.getD i []).length = fc.lags.length ∧
        ∀ j < fc.lags.length,
          (X.getD i []).getD j 0 =
            y.getD (i + fc.max_lag - fc.lags.getD j 0) 0) := by
  refine ⟨_, _, by rw [_create_lags, if_neg (by omega)], by simp, by simp, ?_⟩
  intro i hi
  have hXi : ∀ d, (((List.range (y.length - fc.max_lag)).map
      (fun i => (List.range fc.max_lag).map (fun j => y.getD (i + j) 0))).map
      (fun row => fc.lags.map (fun k => row.getD (fc.max_lag - k) 0))).getD i d =
      fc.lags.map (fun k =>
        ((List.range fc.max_lag).map (fun j => y.getD (i + j) 0)).getD
          (fc.max_lag - k) 0) := by
    intro d
    rw [List.getD_eq_getElem _ _ (by simpa using hi)]
    simp
  refine ⟨?_, ?_, ?_⟩
  · rw [List.getD_eq_getElem _ _ (by simpa using hi)]
    simp
  · rw [hXi]
    simp
  · intro j hj
    rw [hXi, List.getD_eq_getElem _ _ (by simpa using hj)]
    simp only [List.getElem_map]
    have hmem : fc.lags[j] ∈ fc.lags := List.getElem_mem hj
    obtain ⟨hk1, hk2⟩ := hlag _ hmem
    have hgd : fc.lags.getD j 0 = fc.lags[j] := List.getD_eq_getElem _ _ hj
    rw [List.getD_eq_getElem _ _ (by simp; omega)]
    simp only [List.getElem_map, List.getElem_range]
    rw [hgd]
    congr 1
    omega

/-! ### C2 — sequential equivalence of repeated one-step prediction -/

/-- Repeating `predict(steps=1)` with the reseeded window replays exactly
the recursive loop of a single multi-step call. -/
theorem reseeded_one_step_calls_eq (fc : Forecaster)
    (h1 : fc.fitted = true) (h2 : fc.included_exog = false) :
    ∀ (k : ℕ) (w : List ℚ), fc.max_lag ≤ w.length →
      reseeded_one_step_calls fc k w = (predict_loop fc k w none).2
  | 0, _, _ => rfl
  | Nat.succ k, w, hw => by
    rw [reseeded_one_step_calls, predict_ok fc 1 w h1 h2 (by omega) hw]
    simp only [predict_loop, predict_loop_fst, Option.map_none', List.headD_cons]
    rw [reseeded_one_step_calls_eq fc h1 h2 k _
      (by simp only [List.length_append, List.length_tail, List.length_cons,
            List.length_nil]; omega)]

/-- C2: for a fitted forecaster trained without exogenous data and any
window of at least `max_lag` values, calling `predict(steps=1)` `k` times —
each time dropping the window's oldest value and appending the previous
call's prediction — yields the same `k` values as one `predict(steps=k)`
call from the same initial window. -/
theorem C2_sequential_equivalence (fc : Forecaster) (w : List ℚ) (k : ℕ)
    (h1 : fc.fitted = true) (h2 : fc.included_exog = false)
    (h3 : 1 ≤ k) (h4 : fc.max_lag ≤ w.length) :
    (predict fc k (some w) none).2 = .ok (reseeded_one_step_calls fc k w) := by
  rw [predict_ok fc k w h1 h2 (by omega) h4,
    reseeded_one_step_calls_eq fc h1 h2 k w h4]

/-- Witness for C2 at `fcFit` with window `[9, 10]` and `k = 3`. -/
theorem C2_sequential_equivalence_witness :
    fcFit.fitted = true ∧ fcFit.included_exog = false ∧ 1 ≤ 3 ∧
      fcFit.max_lag ≤ [(9 : ℚ), 10].length ∧
      (predict fcFit 3 (some [9, 10]) none).2 =
        .ok (reseeded_one_step_calls fcFit 3 [9, 10]) :=
  ⟨rfl, rfl, by omega, by decide,
    C2_sequential_equivalence fcFit [9, 10] 3 rfl rfl (by omega) (by decide)⟩

/-! ### C9 — `set_lags` reconfigures only the lag attributes -/

/-- The maximum of the dense lag set `1..m` is `m`. -/
theorem foldl_max_range_map_succ (m : ℕ) :
    ((List.range m).map (fun i => i + 1)).foldl max 0 = m := by
  induction m with
  | zero => rfl
  | succ k ih =>
    rw [List.range_succ, List.map_append, List.foldl_append, ih]
    simp only [List.map_cons, List.map_nil, List.foldl_cons, List.foldl_nil]
    omega

/-- C9: a successful `set_lags` updates exactly `lags`, `max_lag` and
`window_size` — with `window_size = max_lag = max(new lags)` — and leaves
the regressor, the fitted flag, the stored window, both residual
collections and the training metadata untouched; in particular the fitted
state is not invalidated. -/
theorem C9_set_lags_frame (fc : Forecaster) (arg : ℕ ⊕ List ℕ) (fc' : Forecaster)
    (h : set_lags fc arg = .ok fc') :
    fc'.regressor = fc.regressor ∧ fc'.fitted = fc.fitted ∧
    fc'.last_window = fc.last_window ∧
    fc'.in_sample_residuals = fc.in_sample_residuals ∧
    fc'.out_sample_residuals = fc.out_sample_residuals ∧
    fc'.included_exog = fc.included_exog ∧
    fc'.training_range = fc.training_range ∧
    fc'.y_index_freq = fc.y_index_freq ∧
    fc'.max_lag = fc'.lags.foldl max 0 ∧ fc'.window_size = fc'.max_lag ∧
    (∀ m, arg = .inl m → fc'.lags = (List.range m).map (fun i => i + 1)) ∧
    (∀ l, arg = .inr l → fc'.lags = l) := by
  cases arg with
  | inl m =>
    rw [set_lags] at h
    split_ifs at h
    cases h
    refine ⟨rfl, rfl, rfl, rfl, rfl, rfl, rfl, rfl, ?_, rfl, ?_, ?_⟩
    · exact (foldl_max_range_map_succ m).symm
    · intro m' hm
      cases hm
      rfl
    · intro l hl
      cases hl
  | inr l =>
    rw [set_lags] at h
    split_ifs at h
    cases h
    refine ⟨rfl, rfl, rfl, rfl, rfl, rfl, rfl, rfl, rfl, rfl, ?_, ?_⟩
    · intro m' hm
      cases hm
    · intro l' hl
      cases hl
      rfl

/-- Witness for C9: `set_lags([1, 3])` on the freshly constructed
`fcDense`. -/
theorem C9_set_lags_frame_witness :
    set_lags fcDense (Sum.inr [1, 3]) = .ok fcRelag ∧
    (fcRelag.regressor = fcDense.regressor ∧ fcRelag.fitted = fcDense.fitted ∧
     fcRelag.last_window = fcDense.last_window ∧
     fcRelag.in_sample_residuals = fcDense.in_sample_residuals ∧
     fcRelag.out_sample_residuals = fcDense.out_sample_residuals ∧
     fcRelag.included_exog = fcDense.included_exog ∧
     fcRelag.training_range = fcDense.training_range ∧
     fcRelag.y_index_freq = fcDense.y_index_freq ∧
     fcRelag.max_lag = fcRelag.lags.foldl max 0 ∧
     fcRelag.window_size = fcRelag.max_lag ∧
     (∀ m, Sum.inr [1, 3] = Sum.inl m → fcRelag.lags = (List.range m).map (fun i => i + 1)) ∧
     (∀ l, (Sum.inr [1, 3] : ℕ ⊕ List ℕ) = Sum.inr l → fcRelag.lags = l)) :=
  ⟨rfl, C9_set_lags_frame fcDense (Sum.inr [1, 3]) fcRelag rfl⟩

/-! ### C5 — the time-ordered fold splitter -/

/-- C5 (counterexample): with `N = 3`, `initial_train_size = 2`,
`steps = 2`, `allow_incomplete_fold = True` there is a nonzero remainder
(`(3 - 2) % 2 = 1`) and the policy allows incomplete folds, so the claim
requires a final short test fold `(range(2), range(2, 3))` to be yielded —
but the source hits its `folds == 1` early return and yields nothing at
all. -/
theorem C5_splitter_counterexample :
    (3 : ℕ) - 2 ≠ 0 ∧ ((3 : ℕ) - 2) % 2 ≠ 0 ∧
    time_series_spliter 3 2 2 true = some [] := by
  refine ⟨by decide, by decide, by decide⟩

/-- C5 (amended): for `steps ≥ 1` and `initial_train_size ≤ N` the splitter
yields exactly `(N - its) / steps` complete folds — the `i`-th having train
range `range(its + i·steps)` (which starts at 0 and grows by `steps` per
fold) and test range the immediately following `steps` positions — plus a
final incomplete fold reaching to `N` exactly when the policy allows it,
the remainder is nonzero **and at least one complete fold fits**
(`steps ≤ N - its`); when `N - its < steps` nothing is yielded, even if an
allowed nonzero remainder exists.  The claim's concrete example is
unaffected. -/
theorem C5_splitter_amended (n its steps : ℕ) (allow : Bool)
    (h1 : 1 ≤ steps) (h2 : its ≤ n) :
    time_series_spliter n its steps allow =
      some (((List.range ((n - its) / steps)).map (fun i =>
          ((0, its + i * steps), (its + i * steps, its + i * steps + steps)))) ++
        (if allow = true ∧ (n - its) % steps ≠ 0 ∧ steps ≤ n - its then
          [((0, its + ((n - its) / steps) * steps),
            (its + ((n - its) / steps) * steps, n))]
        else [])) ∧
    time_series_spliter 10 5 2 true =
      some [((0, 5), (5, 7)), ((0, 7), (7, 9)), ((0, 9), (9, 10))] := by
  refine ⟨?_, by decide⟩
  unfold time_series_spliter
  rw [if_neg (by omega), if_neg (by omega)]
  by_cases hq : (n - its) / steps = 0
  · have hlt : n - its < steps := (Nat.div_eq_zero_iff (by omega)).mp hq
    rw [if_pos (by omega)]
    rw [hq]
    simp only [List.range_zero, List.map_nil, List.nil_append]
    rw [if_neg (by omega)]
  · have hge : steps ≤ n - its := by
      by_contra hc
      exact hq (Nat.div_eq_zero_iff (by omega) |>.mpr (by omega))
    rw [if_neg (by omega)]
    congr 1
    have hsplit : List.range ((n - its) / steps + 1) =
        List.range ((n - its) / steps) ++ [(n - its) / steps] := List.range_succ _
    rw [hsplit, List.filterMap_append]
    congr 1
    · rw [List.filterMap_congr (g := fun i =>
        some ((0, its + i * steps), (its + i * steps, its + i * steps + steps)))]
      · exact congrFun (List.filterMap_eq_map _) _
      · intro i hi
        rw [if_pos]
        have := List.mem_range.mp hi
        omega
    · rw [List.filterMap_cons, List.filterMap_nil]
      rw [if_neg (by simp)]
      by_cases ha : (n - its) % steps ≠ 0 ∧ allow = true
      · rw [if_pos ha, if_pos ⟨ha.2, ha.1, hge⟩]
      · rw [if_neg ha, if_neg (by tauto)]

/-- Witness for C5 at the claim's own example
`N = 10, initial_train_size = 5, steps = 2, allow_incomplete_fold = True`. -/
theorem C5_splitter_amended_witness :
    1 ≤ 2 ∧ 5 ≤ 10 ∧
    time_series_spliter 10 5 2 true =
      some [((0, 5), (5, 7)), ((0, 7), (7, 9)), ((0, 9), (9, 10))] :=
  ⟨by omega, by omega, (C5_splitter_amended 10 5 2 true (by omega) (by omega)).2⟩

/-! ### C3 — state after a failed `fit` -/

/-- C3 (counterexample): call `fit` on an already fitted forecaster with a
series containing a missing value.  The validation error is raised, but
the attribute reset at the top of `fit` (source lines 285-295) has already
run: the fitted flag and the stored window do **not** equal their pre-call
values, contradicting the claim that the error precedes any mutation. -/
theorem C3_failed_fit_counterexample :
    (fit zeroTrain pick0 fcFit [some 1, none] none).2 = some .missingValues ∧
    fcFit.fitted = true ∧
    (fit zeroTrain pick0 fcFit [some 1, none] none).1.fitted = false ∧
    fcFit.last_window = some [9, 10] ∧
    (fit zeroTrain pick0 fcFit [some 1, none] none).1.last_window = none :=
  ⟨rfl, rfl, rfl, rfl, rfl⟩

/-- C3 (amended): a validation failure of `fit` is raised before the
regressor is trained and before any new training artifacts are stored, but
**after** the forecaster's transient attributes are reset.  After a failed
`fit` the forecaster is in the freshly reset state — `fitted = False`,
`last_window`, `in_sample_residuals` and `out_sample_residuals` all
cleared, the regressor and the lag configuration untouched, and the
training-range metadata either still cleared or already set from the new
`y` (the reset/metadata values, never the pre-call ones). -/
theorem C3_failed_fit_state (train : List (List ℚ) → List ℚ → (List ℚ → ℚ))
    (pick : ℕ → ℕ) (fc : Forecaster) (y : List (Option ℚ)) (exog : Option (List ℚ))
    (h : ((fit train pick fc y exog).2).isSome = true) :
    (fit train pick fc y exog).1.fitted = false ∧
    (fit train pick fc y exog).1.last_window = none ∧
    (fit train pick fc y exog).1.in_sample_residuals = none ∧
    (fit train pick fc y exog).1.out_sample_residuals = none ∧
    (fit train pick fc y exog).1.regressor = fc.regressor ∧
    (fit train pick fc y exog).1.lags = fc.lags ∧
    (fit train pick fc y exog).1.max_lag = fc.max_lag ∧
    (fit train pick fc y exog).1.window_size = fc.window_size ∧
    ((fit train pick fc y exog).1.training_range = none ∨
     (fit train pick fc y exog).1.training_range = some (0, y.length - 1)) := by
  unfold fit at h ⊢
  by_cases h1 : y.any (fun v => v.isNone)
  · simp only [if_pos h1]
    exact ⟨rfl, rfl, rfl, rfl, rfl, rfl, rfl, rfl, Or.inl rfl⟩
  · simp only [if_neg h1] at h ⊢
    by_cases h2 : y.length = 0
    · simp only [if_pos h2]
      exact ⟨rfl, rfl, rfl, rfl, rfl, rfl, rfl, rfl, Or.inl rfl⟩
    · simp only [if_neg h2] at h ⊢
      cases exog with
      | none =>
        cases hc : _create_lags (fitMeta fc y.length) (y.map (fun v => v.getD 0)) with
        | none =>
          simp only [hc]
          exact ⟨rfl, rfl, rfl, rfl, rfl, rfl, rfl, rfl, Or.inr rfl⟩
        | some p =>
          rw [hc] at h
          cases h' : p with
          | mk X t => simp [h'] at h
      | some e =>
        by_cases h3 : e.length ≠ (y.map (fun v => v.getD 0)).length
        · simp only [if_pos h3]
          exact ⟨rfl, rfl, rfl, rfl, rfl, rfl, rfl, rfl, Or.inr rfl⟩
        · simp only [if_neg h3] at h ⊢
          cases hc : _create_lags { fitMeta fc y.length with included_exog := true }
              (y.map (fun v => v.getD 0)) with
          | none =>
            simp only [hc]
            exact ⟨rfl, rfl, rfl, rfl, rfl, rfl, rfl, rfl, Or.inr rfl⟩
          | some p =>
            rw [hc] at h
            cases h' : p with
            | mk X t => simp [h'] at h

/-- Witness for C3: the missing-value failure on the fitted `fcFit`. -/
theorem C3_failed_fit_state_witness :
    ((fit zeroTrain pick0 fcFit [some 1, none] none).2).isSome = true ∧
    ((fit zeroTrain pick0 fcFit [some 1, none] none).1.fitted = false ∧
     (fit zeroTrain pick0 fcFit [some 1, none] none).1.last_window = none ∧
     (fit zeroTrain pick0 fcFit [some 1, none] none).1.in_sample_residuals = none ∧
     (fit zeroTrain pick0 fcFit [some 1, none] none).1.out_sample_residuals = none ∧
     (fit zeroTrain pick0 fcFit [some 1, none] none).1.regressor = fcFit.regressor ∧
     (fit zeroTrain pick0 fcFit [some 1, none] none).1.lags = fcFit.lags ∧
     (fit zeroTrain pick0 fcFit [some 1, none] none).1.max_lag = fcFit.max_lag ∧
     (fit zeroTrain pick0 fcFit [some 1, none] none).1.window_size = fcFit.window_size ∧
     ((fit zeroTrain pick0 fcFit [some 1, none] none).1.training_range = none ∨
      (fit zeroTrain pick0 fcFit [some 1, none] none).1.training_range =
        some (0, [some (1 : ℚ), none].length - 1))) :=
  ⟨rfl, C3_failed_fit_state zeroTrain pick0 fcFit [some 1, none] none rfl⟩

/-! ### C4 — the 1000-residual cap -/

/-- The capped residual sample never exceeds 1000 values. -/
theorem capResiduals_length_le (pick : ℕ → ℕ) (r : List ℚ) :
    (capResiduals pick r).length ≤ 1000 := by
  unfold capResiduals
  split_ifs with h
  · simp
  · omega

/-- `set_out_sample_residuals` never touches the in-sample collection. -/
theorem set_out_sample_residuals_in_sample (pick : ℕ → ℕ) (fc : Forecaster)
    (res : List ℚ) (append : Bool) :
    (set_out_sample_residuals pick fc res append).in_sample_residuals =
      fc.in_sample_residuals := by
  unfold set_out_sample_residuals
  dsimp only
  split_ifs <;> rfl

/-- The out-of-sample store never exceeds 1000 values after a
`set_out_sample_residuals` call, provided it did not before. -/
theorem set_out_sample_residuals_out_len (pick : ℕ → ℕ) (fc : Forecaster)
    (res : List ℚ) (append : Bool)
    (h : ∀ l, fc.out_sample_residuals = some l → l.length ≤ 1000) :
    ∀ l, (set_out_sample_residuals pick fc res append).out_sample_residuals = some l →
      l.length ≤ 1000 := by
  intro l hl
  unfold set_out_sample_residuals at hl
  dsimp only at hl
  split_ifs at hl with h1 h2
  · cases hl
    exact capResiduals_length_le pick res
  · cases hl
    push_neg at h1
    obtain ⟨st, hst⟩ := Option.ne_none_iff_exists'.mp h1.2
    have hstlen : st.length ≤ 1000 := h st hst
    rw [hst] at h2 ⊢
    simp only [Option.getD_some] at h2 ⊢
    simp only [List.length_append]
    omega
  · cases hl
    push_neg at h1
    obtain ⟨st, hst⟩ := Option.ne_none_iff_exists'.mp h1.2
    have hstlen : st.length ≤ 1000 := h st hst
    rw [hst]
    simp only [Option.getD_some, List.length_append, List.length_take]
    omega

/-- `set_out_sample_residuals` preserves the residual cap. -/
theorem set_out_sample_residuals_len_ok (pick : ℕ → ℕ) (fc : Forecaster)
    (res : List ℚ) (append : Bool) (h : residualsLenOk fc) :
    residualsLenOk (set_out_sample_residuals pick fc res append) := by
  refine ⟨?_, set_out_sample_residuals_out_len pick fc res append h.2⟩
  rw [set_out_sample_residuals_in_sample]
  exact h.1

/-- A successful `fit` leaves at most 1000 in-sample residuals and clears
the out-of-sample store. -/
theorem fit_residuals_len_ok (train : List (List ℚ) → List ℚ → (List ℚ → ℚ))
    (pick : ℕ → ℕ) (fc : Forecaster) (y : List (Option ℚ)) (exog : Option (List ℚ))
    (h : (fit train pick fc y exog).2 = none) :
    residualsLenOk (fit train pick fc y exog).1 := by
  unfold fit at h ⊢
  by_cases h1 : y.any (fun v => v.isNone)
  · rw [if_pos h1] at h
    exact absurd h (by simp)
  · simp only [if_neg h1] at h ⊢
    by_cases h2 : y.length = 0
    · rw [if_pos h2] at h
      exact absurd h (by simp)
    · simp only [if_neg h2] at h ⊢
      cases exog with
      | none =>
        cases hc : _create_lags (fitMeta fc y.length) (y.map (fun v => v.getD 0)) with
        | none =>
          rw [hc] at h
          exact absurd h (by simp)
        | some p =>
          simp only [hc]
          refine ⟨fun l hl => ?_, fun l hl => by cases hl⟩
          cases hl
          exact capResiduals_length_le pick _
      | some e =>
        by_cases h3 : e.length ≠ (y.map (fun v => v.getD 0)).length
        · simp only [if_pos h3] at h
          exact absurd h (by simp)
        · simp only [if_neg h3] at h ⊢
          cases hc : _create_lags { fitMeta fc y.length with included_exog := true }
              (y.map (fun v => v.getD 0)) with
          | none =>
            rw [hc] at h
            exact absurd h (by simp)
          | some p =>
            simp only [hc]
            refine ⟨fun l hl => ?_, fun l hl => by cases hl⟩
            cases hl
            exact capResiduals_length_le pick _

/-- Folding any sequence of `set_out_sample_residuals` calls preserves the
residual cap. -/
theorem foldl_set_out_sample_residuals_len_ok
    (calls : List ((ℕ → ℕ) × List ℚ × Bool)) :
    ∀ (s : Forecaster), residualsLenOk s →
      residualsLenOk (calls.foldl
        (fun s c => set_out_sample_residuals c.1 s c.2.1 c.2.2) s) := by
  induction calls with
  | nil => exact fun s h => h
  | cons c cs ih =>
    intro s h
    exact ih _ (set_out_sample_residuals_len_ok c.1 s c.2.1 c.2.2 h)

/-- C4: after a successful `fit` followed by any finite sequence of
`set_out_sample_residuals` calls (any residual lists, any `append` flags,
any sampling oracles) both stored residual collections hold at most 1000
values; moreover a single appending call on a store of `stored ≤ 1000`
residuals keeps exactly the first `1000 - len(stored)` of the (capped)
new values — the excess is discarded without error. -/
theorem C4_residual_cap (train : List (List ℚ) → List ℚ → (List ℚ → ℚ))
    (pick : ℕ → ℕ) (fc : Forecaster) (y : List (Option ℚ)) (exog : Option (List ℚ))
    (calls : List ((ℕ → ℕ) × List ℚ × Bool))
    (pickB : ℕ → ℕ) (fcB : Forecaster) (stored newRes : List ℚ)
    (hfit : (fit train pick fc y exog).2 = none)
    (hB : fcB.out_sample_residuals = some stored) (hBlen : stored.length ≤ 1000) :
    residualsLenOk (calls.foldl
      (fun s c => set_out_sample_residuals c.1 s c.2.1 c.2.2)
      (fit train pick fc y exog).1) ∧
    (set_out_sample_residuals pickB fcB newRes true).out_sample_residuals =
      some (stored ++ (capResiduals pickB newRes).take (1000 - stored.length)) := by
  constructor
  · exact foldl_set_out_sample_residuals_len_ok calls _
      (fit_residuals_len_ok train pick fc y exog hfit)
  · unfold set_out_sample_residuals
    rw [if_neg (by simp [hB])]
    rw [hB]
    simp only [Option.getD_some]
    split_ifs with hlt
    · rw [List.take_of_length_le (by omega)]
    · rfl

/-- Witness for C4: a successful fit of `fcDense` on five observations, one
appending call, and a concrete append on `fcStored`. -/
theorem C4_residual_cap_witness :
    (fit zeroTrain pick0 fcDense [some 1, some 2, some 3, some 4, some 5] none).2 = none ∧
    fcStored.out_sample_residuals = some [1, 2] ∧ ([(1 : ℚ), 2]).length ≤ 1000 ∧
    (residualsLenOk ([((pick0, ([5, 6, 7], true)) : (ℕ → ℕ) × List ℚ × Bool)].foldl
        (fun s c => set_out_sample_residuals c.1 s c.2.1 c.2.2)
        (fit zeroTrain pick0 fcDense [some 1, some 2, some 3, some 4, some 5] none).1) ∧
      (set_out_sample_residuals pick0 fcStored [3, 4, 5] true).out_sample_residuals =
        some ([1, 2] ++ (capResiduals pick0 [3, 4, 5]).take (1000 - [(1 : ℚ), 2].length))) :=
  ⟨rfl, rfl, by decide,
    C4_residual_cap zeroTrain pick0 fcDense [some 1, some 2, some 3, some 4, some 5] none
      [(pick0, ([5, 6, 7], true))] pick0 fcStored [1, 2] [3, 4, 5] rfl rfl (by decide)⟩

/-! ### C8 — exactly when `predict` raises -/

/-- C8 (counterexample): two calls on which the claim's "exactly these
cases" fails.  First, a fitted forecaster (`max_lag = 2`), `steps = 1`, no
exogenous data anywhere — none of the claim's error conditions holds — yet
`predict` raises, because the supplied `last_window` `[5]` is shorter than
`max_lag`.  Second, a forecaster trained with exogenous data, given an
`exog` with at least `steps` values — the claim says this call performs
the prediction — yet `predict` raises: the `_check_exog` call at source
lines 397-401 uses the nonexistent keyword `ref_shape` and Python raises
`TypeError`. -/
theorem C8_predict_error_counterexample :
    (isErr (predict fcFit 1 (some [5]) none).2 = true ∧
     fcFit.fitted = true ∧ (1 : ℕ) ≠ 0 ∧ fcFit.included_exog = false ∧
     [(5 : ℚ)].length < fcFit.max_lag) ∧
    (isErr (predict fcFitExog 1 (some [9, 10]) (some [3])).2 = true ∧
     (predict fcFitExog 1 (some [9, 10]) (some [3])).2 = .error .typeError ∧
     fcFitExog.fitted = true ∧ fcFitExog.included_exog = true ∧
     ¬ [(3 : ℚ)].length < 1 ∧ ¬ [(9 : ℚ), 10].length < fcFitExog.max_lag) :=
  ⟨⟨rfl, rfl, by omega, rfl, by decide⟩,
   ⟨rfl, rfl, rfl, rfl, by decide, by decide⟩⟩

/-- C8 (amended): on well-formed states, `predict` raises exactly when the
forecaster is not fitted, `steps < 1`, exogenous data is required but
absent, **any** exogenous data is supplied — whether or not the forecaster
was trained with it: an unexpected `exog` raises as claimed, and for a
forecaster trained with exogenous data the `_check_exog` call itself
raises `TypeError` (keyword `ref_shape` versus parameter `ref_col_names`,
source lines 397-401), so no exogenous call can succeed — or a supplied
`last_window` holds fewer than `max_lag` values; otherwise it performs the
prediction.  (Non-Series arguments and missing values in the window, which
also raise, are outside this numeric embedding's input space.) -/
theorem C8_predict_error_conditions (fc : Forecaster) (steps : ℕ)
    (lw exog : Option (List ℚ)) (hwf : WF fc) :
    isErr (predict fc steps lw exog).2 = true ↔
      (fc.fitted = false ∨ steps = 0 ∨
       (fc.included_exog = true ∧ exog = none) ∨
       exog ≠ none ∨
       (∃ w, lw = some w ∧ w.length < fc.max_lag)) := by
  unfold predict
  by_cases hf : fc.fitted = false
  · simp [hf, isErr]
  · have hf' : fc.fitted = true := by revert hf; cases fc.fitted <;> simp
    rw [if_neg hf]
    by_cases hs : steps = 0
    · simp [hs, isErr, hf]
    · rw [if_neg hs]
      cases hex : exog with
      | none =>
        cases hinc : fc.included_exog with
        | true => simp [isErr, hf, hs]
        | false =>
          simp only [Option.isNone_none, Bool.and_false, Bool.false_and,
            Option.isSome_none, Option.map_none', Option.getD_none, Bool.false_eq_true,
            if_false, if_neg (lt_irrefl steps)]
          cases hlw : lw with
          | some w =>
            by_cases hww : w.length < fc.max_lag
            · simp [hww, isErr, hf, hs, hinc]
            · simp [hww, isErr, hf, hs, hinc]
          | none =>
            obtain ⟨w, hw, hwl⟩ := hwf.2 hf'
            rw [hw]
            simp [isErr, hf, hs, hinc]
      | some e =>
        constructor
        · intro _
          exact Or.inr (Or.inr (Or.inr (Or.inl (by simp))))
        · intro _
          cases hinc : fc.included_exog with
          | false => simp [isErr, hinc]
          | true =>
            by_cases hel : e.length < steps
            · simp [isErr, hinc, hel]
            · simp [isErr, hinc, hel]

/-- Witness for C8: the `steps = 0` error on the fitted `fcFit`. -/
theorem C8_predict_error_conditions_witness :
    WF fcFit ∧
    (isErr (predict fcFit 0 none none).2 = true ↔
      (fcFit.fitted = false ∨ (0 : ℕ) = 0 ∨
       (fcFit.included_exog = true ∧ (none : Option (List ℚ)) = none) ∨
       (none : Option (List ℚ)) ≠ none ∨
       (∃ w, (none : Option (List ℚ)) = some w ∧ w.length < fcFit.max_lag))) := by
  have hwf : WF fcFit := ⟨by decide, fun _ => ⟨[9, 10], rfl, by decide⟩⟩
  exact ⟨hwf, C8_predict_error_conditions fcFit 0 none none hwf⟩

/-! ### C10 — predictions depend only on the trailing `max_lag` values -/

/-- The recursive loop's output depends only on the trailing `m` values of
the working buffer, for any `m` bounding every configured lag. -/
theorem predict_loop_suffix_eq (fc : Forecaster) (m : ℕ)
    (hm : 1 ≤ m) (hlag : ∀ k ∈ fc.lags, 1 ≤ k ∧ k ≤ m) :
    ∀ (steps : ℕ) (w1 w2 : List ℚ), m ≤ w1.length → m ≤ w2.length →
      w1.drop (w1.length - m) = w2.drop (w2.length - m) →
      (predict_loop fc steps w1 none).2 = (predict_loop fc steps w2 none).2 := by
  have feat : ∀ (w : List ℚ), m ≤ w.length → ∀ k, 1 ≤ k → k ≤ m →
      w.getD (w.length - k) 0 = (w.drop (w.length - m)).getD (m - k) 0 := by
    intro w hw k hk1 hk2
    rw [List.getD_eq_getElem _ _ (by omega),
      List.getD_eq_getElem _ _ (by simp; omega)]
    rw [List.getElem_drop]
    congr 1
    omega
  have upd : ∀ (w : List ℚ) (p : ℚ), m ≤ w.length →
      (w.tail ++ [p]).drop ((w.tail ++ [p]).length - m) =
        (w.drop (w.length - m)).tail ++ [p] := by
    intro w p hw
    have hlen : (w.tail ++ [p]).length = w.length := by
      simp [List.length_tail]
      omega
    rw [hlen, ← List.drop_one, List.drop_append_of_le_length (by simp; omega),
      List.drop_drop, List.tail_drop]
    congr 2
    omega
  intro steps
  induction steps with
  | zero => intro w1 w2 _ _ _; rfl
  | succ s ih =>
    intro w1 w2 h1 h2 hsuf
    simp only [predict_loop, Option.map_none']
    have hfeat : (fc.lags.map (fun k => w1.getD (w1.length - k) 0)) =
        (fc.lags.map (fun k => w2.getD (w2.length - k) 0)) := by
      refine List.map_congr_left (fun k hk => ?_)
      obtain ⟨hk1, hk2⟩ := hlag k hk
      rw [feat w1 h1 k hk1 hk2, feat w2 h2 k hk1 hk2, hsuf]
    rw [hfeat]
    congr 1
    exact ih _ _ (by simp [List.length_tail]; omega) (by simp [List.length_tail]; omega)
      (by rw [upd w1 _ h1, upd w2 _ h2, hsuf])

/-- C10: for a fitted, well-formed forecaster trained without exogenous
data and two supplied windows, each of length at least `max_lag`, whose
trailing `max_lag` values agree, `predict` returns the same result for
both — any longer history is ignored. -/
theorem C10_predict_ignores_older_history (fc : Forecaster) (w1 w2 : List ℚ)
    (steps : ℕ) (hwf : WF fc) (hf : fc.fitted = true)
    (hinc : fc.included_exog = false) (hm : 1 ≤ fc.max_lag)
    (h1 : fc.max_lag ≤ w1.length) (h2 : fc.max_lag ≤ w2.length)
    (hsuf : w1.drop (w1.length - fc.max_lag) = w2.drop (w2.length - fc.max_lag)) :
    (predict fc steps (some w1) none).2 = (predict fc steps (some w2) none).2 := by
  by_cases hs : steps = 0
  · subst hs
    unfold predict
    rw [if_neg (by simp [hf]), if_pos rfl, if_neg (by simp [hf]), if_pos rfl]
  · rw [predict_ok fc steps w1 hf hinc hs h1, predict_ok fc steps w2 hf hinc hs h2]
    exact congrArg Except.ok
      (predict_loop_suffix_eq fc fc.max_lag hm hwf.1 steps w1 w2 h1 h2 hsuf)

/-- Witness for C10: `fcFit` with the windows `[7, 9, 10]` and `[9, 10]`,
whose trailing two values agree. -/
theorem C10_predict_ignores_older_history_witness :
    WF fcFit ∧ fcFit.fitted = true ∧ fcFit.included_exog = false ∧
    1 ≤ fcFit.max_lag ∧ fcFit.max_lag ≤ [(7 : ℚ), 9, 10].length ∧
    fcFit.max_lag ≤ [(9 : ℚ), 10].length ∧
    [(7 : ℚ), 9, 10].drop ([(7 : ℚ), 9, 10].length - fcFit.max_lag) =
      [(9 : ℚ), 10].drop ([(9 : ℚ), 10].length - fcFit.max_lag) ∧
    (predict fcFit 2 (some [7, 9, 10]) none).2 =
      (predict fcFit 2 (some [9, 10]) none).2 := by
  have hwf : WF fcFit := ⟨by decide, fun _ => ⟨[9, 10], rfl, by decide⟩⟩
  refine ⟨hwf, rfl, rfl, by decide, by decide, by decide, rfl, ?_⟩
  exact C10_predict_ignores_older_history fcFit [7, 9, 10] [9, 10] 2 hwf rfl rfl
    (by decide) (by decide) (by decide) rfl

/-! ### Percentile facts (np.percentile with linear interpolation) -/

/-- Entries of a sorted list are monotone in the index. -/
theorem sorted_getD_le (s : List ℚ) (hs : s.Sorted (· ≤ ·)) (i j : ℕ)
    (hij : i ≤ j) (hj : j < s.length) : s.getD i 0 ≤ s.getD j 0 := by
  rw [List.getD_eq_getElem _ _ (lt_of_le_of_lt hij hj), List.getD_eq_getElem _ _ hj]
  have := hs.rel_get_of_le (a := ⟨i, lt_of_le_of_lt hij hj⟩) (b := ⟨j, hj⟩)
    (Fin.mk_le_mk.mpr hij)
  simpa using this

/-- Linear interpolation into a sorted list is monotone in the position. -/
theorem interpAt_mono (s : List ℚ) (hs : s.Sorted (· ≤ ·)) (p1 p2 : ℚ)
    (hp0 : 0 ≤ p1) (hp12 : p1 ≤ p2) (hp2 : p2 ≤ (s.length : ℚ) - 1) :
    interpAt s p1 ≤ interpAt s p2 := by
  have hm1 : 1 ≤ s.length := by
    by_contra hc
    have h0 : s.length = 0 := by omega
    rw [h0] at hp2
    push_cast at hp2
    linarith
  have hf1 : (0 : ℤ) ≤ ⌊p1⌋ := Int.floor_nonneg.mpr hp0
  have hf2 : (0 : ℤ) ≤ ⌊p2⌋ := Int.floor_nonneg.mpr (le_trans hp0 hp12)
  have hc1 : ((⌊p1⌋.toNat : ℕ) : ℚ) ≤ p1 := by
    have h2 : ((⌊p1⌋.toNat : ℤ) : ℚ) ≤ p1 := by
      rw [Int.toNat_of_nonneg hf1]
      exact Int.floor_le p1
    exact_mod_cast h2
  have hc1' : p1 < ((⌊p1⌋.toNat : ℕ) : ℚ) + 1 := by
    have h2 : p1 < ((⌊p1⌋.toNat : ℤ) : ℚ) + 1 := by
      rw [Int.toNat_of_nonneg hf1]
      exact Int.lt_floor_add_one p1
    exact_mod_cast h2
  have hc2 : ((⌊p2⌋.toNat : ℕ) : ℚ) ≤ p2 := by
    have h2 : ((⌊p2⌋.toNat : ℤ) : ℚ) ≤ p2 := by
      rw [Int.toNat_of_nonneg hf2]
      exact Int.floor_le p2
    exact_mod_cast h2
  have hc2' : p2 < ((⌊p2⌋.toNat : ℕ) : ℚ) + 1 := by
    have h2 : p2 < ((⌊p2⌋.toNat : ℤ) : ℚ) + 1 := by
      rw [Int.toNat_of_nonneg hf2]
      exact Int.lt_floor_add_one p2
    exact_mod_cast h2
  have h12 : ⌊p1⌋.toNat ≤ ⌊p2⌋.toNat :=
    Int.toNat_le_toNat (Int.floor_le_floor hp12)
  have hi2m : ⌊p2⌋.toNat + 1 ≤ s.length := by
    have hq : ((⌊p2⌋.toNat : ℕ) : ℚ) + 1 ≤ (s.length : ℚ) := by linarith
    exact_mod_cast hq
  unfold interpAt
  dsimp only
  rcases Nat.lt_or_ge ⌊p1⌋.toNat ⌊p2⌋.toNat with hlt | hge
  · have hA : ⌊p1⌋.toNat + 1 < s.length := by omega
    rw [if_pos hA]
    have hd1 : s.getD ⌊p1⌋.toNat 0 ≤ s.getD (⌊p1⌋.toNat + 1) 0 :=
      sorted_getD_le s hs _ _ (by omega) (by omega)
    have hmid : s.getD (⌊p1⌋.toNat + 1) 0 ≤ s.getD ⌊p2⌋.toNat 0 :=
      sorted_getD_le s hs _ _ (by omega) (by omega)
    by_cases hB : ⌊p2⌋.toNat + 1 < s.length
    · rw [if_pos hB]
      have hd2 : s.getD ⌊p2⌋.toNat 0 ≤ s.getD (⌊p2⌋.toNat + 1) 0 :=
        sorted_getD_le s hs _ _ (by omega) (by omega)
      nlinarith [hd1, hd2, hc1, hc1', hc2, hc2', hmid]
    · rw [if_neg hB]
      nlinarith [hd1, hc1, hc1', hmid]
  · have heq : ⌊p1⌋.toNat = ⌊p2⌋.toNat := by omega
    rw [heq]
    by_cases hA : ⌊p2⌋.toNat + 1 < s.length
    · rw [if_pos hA, if_pos hA]
      have hd2 : s.getD ⌊p2⌋.toNat 0 ≤ s.getD (⌊p2⌋.toNat + 1) 0 :=
        sorted_getD_le s hs _ _ (by omega) (by omega)
      rw [heq] at hc1 hc1'
      nlinarith [hd2, hp12]
    · rw [if_neg hA, if_neg hA]

/-- `np.percentile` is monotone in the requested percentile. -/
theorem percentile_mono (q1 q2 : ℚ) (l : List ℚ)
    (h0 : 0 ≤ q1) (h12 : q1 ≤ q2) (h100 : q2 ≤ 100) :
    percentile q1 l ≤ percentile q2 l := by
  unfold percentile
  dsimp only
  have hsort : (List.insertionSort (· ≤ ·) l).Sorted (· ≤ ·) :=
    List.sorted_insertionSort _ l
  rcases Nat.eq_zero_or_pos (List.insertionSort (· ≤ ·) l).length with hz | hpos
  · rw [List.length_eq_zero.mp hz]
    simp [interpAt]
  · apply interpAt_mono _ hsort
    · apply mul_nonneg (by positivity)
      have : (1 : ℚ) ≤ ((List.insertionSort (· ≤ ·) l).length : ℚ) := by
        exact_mod_cast hpos
      linarith
    · apply mul_le_mul_of_nonneg_right (by linarith)
      have : (1 : ℚ) ≤ ((List.insertionSort (· ≤ ·) l).length : ℚ) := by
        exact_mod_cast hpos
      linarith
    · have h1 : (1 : ℚ) ≤ ((List.insertionSort (· ≤ ·) l).length : ℚ) := by
        exact_mod_cast hpos
      have : q2 / 100 ≤ 1 := by linarith
      nlinarith

/-- `np.percentile` of a constant collection is that constant. -/
theorem percentile_const (q : ℚ) (l : List ℚ) (c : ℚ) (hl : l ≠ [])
    (hc : ∀ x ∈ l, x = c) (h0 : 0 ≤ q) (h100 : q ≤ 100) :
    percentile q l = c := by
  unfold percentile
  dsimp only
  have hmem : ∀ x ∈ List.insertionSort (· ≤ ·) l, x = c := fun x hx =>
    hc x ((List.perm_insertionSort (· ≤ ·) l).subset hx)
  have hm1 : 1 ≤ (List.insertionSort (· ≤ ·) l).length := by
    rw [List.length_insertionSort]
    exact List.length_pos.mpr hl
  set s := List.insertionSort (· ≤ ·) l with hsdef
  set pos := q / 100 * ((s.length : ℚ) - 1) with hpos
  have hm1q : (1 : ℚ) ≤ (s.length : ℚ) := by exact_mod_cast hm1
  have hpos0 : 0 ≤ pos := by
    rw [hpos]
    apply mul_nonneg (by positivity)
    linarith
  have hposm : pos ≤ (s.length : ℚ) - 1 := by
    rw [hpos]
    have : q / 100 ≤ 1 := by linarith
    nlinarith
  have hfl : (0 : ℤ) ≤ ⌊pos⌋ := Int.floor_nonneg.mpr hpos0
  have hi : ⌊pos⌋.toNat < s.length := by
    have h1 : ((⌊pos⌋.toNat : ℕ) : ℚ) ≤ pos := by
      have h2 : ((⌊pos⌋.toNat : ℤ) : ℚ) ≤ pos := by
        rw [Int.toNat_of_nonneg hfl]
        exact Int.floor_le pos
      exact_mod_cast h2
    have h2 : ((⌊pos⌋.toNat : ℕ) : ℚ) + 1 ≤ (s.length : ℚ) := by linarith
    exact_mod_cast h2
  unfold interpAt
  dsimp only
  have hgi : s.getD ⌊pos⌋.toNat 0 = c := by
    rw [List.getD_eq_getElem _ _ hi]
    exact hmem _ (List.getElem_mem hi)
  split_ifs with hA
  · have hgi1 : s.getD (⌊pos⌋.toNat + 1) 0 = c := by
      rw [List.getD_eq_getElem _ _ hA]
      exact hmem _ (List.getElem_mem hA)
    rw [hgi, hgi1]
    ring
  · exact hgi

/-! ### C7 — bootstrap prediction bands -/

/-- The recursive loop produces one prediction per step. -/
theorem predict_loop_len (fc : Forecaster) :
    ∀ (n : ℕ) (w : List ℚ) (e : Option (List ℚ)),
      ((predict_loop fc n w e).2).length = n
  | 0, _, _ => rfl
  | Nat.succ st, w, e => by
    simp only [predict_loop, List.length_cons, predict_loop_len fc st]

/-- Inversion of a successful exogenous-free `predict` call on a supplied
window. -/
theorem predict_some_ok_inv (fc : Forecaster) (steps : ℕ) (w : List ℚ)
    (preds : List ℚ) (h : (predict fc steps (some w) none).2 = .ok preds) :
    fc.fitted = true ∧ fc.included_exog = false ∧ steps ≠ 0 ∧
    fc.max_lag ≤ w.length ∧ preds = (predict_loop fc steps w none).2 := by
  have hf : fc.fitted = true := by
    by_contra hc
    have hff : fc.fitted = false := by revert hc; cases fc.fitted <;> simp
    unfold predict at h
    rw [if_pos hff] at h
    exact Except.noConfusion h
  have hst : steps ≠ 0 := by
    intro hc
    unfold predict at h
    rw [if_neg (by simp [hf]), if_pos hc] at h
    exact Except.noConfusion h
  have hinc : fc.included_exog = false := by
    by_contra hc
    have hit : fc.included_exog = true := by revert hc; cases fc.included_exog <;> simp
    unfold predict at h
    rw [if_neg (by simp [hf]), if_neg hst, if_pos (by simp [hit])] at h
    exact Except.noConfusion h
  have hwlen : ¬ w.length < fc.max_lag := by
    intro hc
    unfold predict at h
    rw [if_neg (by simp [hf]), if_neg hst, if_neg (by simp [hinc]),
      if_neg (by simp [hinc]), if_neg (by simp), if_neg (by simp)] at h
    dsimp only at h
    rw [if_pos hc] at h
    exact Except.noConfusion h
  refine ⟨hf, hinc, hst, by omega, ?_⟩
  rw [predict_ok fc steps w hf hinc hst (by omega)] at h
  exact (Except.ok.inj h).symm

/-- A bootstrap trial with an all-zero residual sample replays the plain
recursive prediction exactly. -/
theorem boot_trial_zero_sample (fc : Forecaster) (hf : fc.fitted = true)
    (hinc : fc.included_exog = false) :
    ∀ (steps : ℕ) (sample w : List ℚ), fc.max_lag ≤ w.length →
      (∀ x ∈ sample, x = 0) →
      boot_trial fc steps sample w = some (predict_loop fc steps w none).2
  | 0, _, _, _, _ => rfl
  | Nat.succ st, sample, w, hw, hz => by
    rw [boot_trial, predict_ok fc 1 w hf hinc (by omega) hw]
    have hs0 : sample.headD 0 = 0 := by
      cases sample with
      | nil => rfl
      | cons a t => exact hz a (List.mem_cons_self a t)
    have hzt : ∀ x ∈ sample.tail, x = 0 := fun x hx =>
      hz x (List.mem_of_mem_tail hx)
    simp only [predict_loop, predict_loop_fst, Option.map_none', List.headD_cons, hs0,
      add_zero]
    rw [boot_trial_zero_sample fc hf hinc st sample.tail _
      (by simp only [List.length_append, List.length_tail, List.length_cons,
            List.length_nil]; omega) hzt]

/-- Every entry of a drawn residual sample is zero when the sampled
collection is all zeros. -/
theorem sample_residuals_for_zero (pick : ℕ → ℕ → ℕ) (residuals : List ℚ)
    (i steps : ℕ) (hzero : ∀ r ∈ residuals, r = (0 : ℚ)) :
    ∀ x ∈ sample_residuals_for pick residuals i steps, x = 0 := by
  intro x hx
  obtain ⟨j, _, rfl⟩ := List.mem_map.mp hx
  by_cases hidx : pick i j % residuals.length < residuals.length
  · rw [List.getD_eq_getElem _ _ hidx]
    exact hzero _ (List.getElem_mem hidx)
  · rw [List.getD_eq_default _ _ (by omega)]

/-- Every band `_estimate_boot_interval` returns is a pair of the two
requested percentiles of one per-step value collection. -/
theorem estimate_bands_mem (pick : ℕ → ℕ → ℕ) (fc : Forecaster) (steps : ℕ)
    (w : List ℚ) (interval : ℚ × ℚ) (n_boot : ℕ) (ins : Bool)
    (bands : List (ℚ × ℚ))
    (h : _estimate_boot_interval pick fc steps w interval n_boot ins = some bands) :
    ∀ b ∈ bands, ∃ vals : List ℚ,
      b = (percentile interval.1 vals, percentile interval.2 vals) := by
  unfold _estimate_boot_interval at h
  dsimp only at h
  split_ifs at h
  cases h
  intro b hb
  obtain ⟨s', _, rfl⟩ := List.mem_map.mp hb
  exact ⟨_, rfl⟩

/-- The guards of a successful `_estimate_boot_interval`: a nonempty
selected residual collection and at least one trial. -/
theorem estimate_some_guard (pick : ℕ → ℕ → ℕ) (fc : Forecaster) (steps : ℕ)
    (w : List ℚ) (interval : ℚ × ℚ) (n_boot : ℕ) (ins : Bool)
    (bands : List (ℚ × ℚ))
    (h : _estimate_boot_interval pick fc steps w interval n_boot ins = some bands) :
    cond ins (fc.in_sample_residuals.getD []) (fc.out_sample_residuals.getD []) ≠ [] ∧
    n_boot ≠ 0 := by
  unfold _estimate_boot_interval at h
  dsimp only at h
  split_ifs at h with h1 h2
  push_neg at h1
  exact ⟨fun hc => h1.1 (by rw [hc]; rfl), h1.2⟩

/-- With an all-zero in-sample residual collection every bootstrap trial
collapses onto the point predictions, so both percentile bands equal the
point prediction at every step. -/
theorem estimate_boot_zero_residuals (pick : ℕ → ℕ → ℕ) (fc : Forecaster)
    (steps n_boot : ℕ) (w : List ℚ)
    (hf : fc.fitted = true) (hinc : fc.included_exog = false)
    (hw : fc.max_lag ≤ w.length) (hnb : n_boot ≠ 0)
    (hres : fc.in_sample_residuals.getD [] ≠ [])
    (hzero : ∀ r ∈ fc.in_sample_residuals.getD [], r = (0 : ℚ)) :
    _estimate_boot_interval pick fc steps w (5, 95) n_boot true =
      some ((List.range steps).map (fun s =>
        ((predict_loop fc steps w none).2.getD s 0,
         (predict_loop fc steps w none).2.getD s 0))) := by
  unfold _estimate_boot_interval
  dsimp only
  simp only [Bool.cond_true]
  rw [if_neg (by
    push_neg
    exact ⟨fun hh => hres (List.length_eq_zero.mp hh), hnb⟩)]
  have htr : (List.range n_boot).map (fun i =>
      boot_trial fc steps
        (sample_residuals_for pick (fc.in_sample_residuals.getD []) i steps) w) =
      (List.range n_boot).map (fun _ => some (predict_loop fc steps w none).2) :=
    List.map_congr_left (fun i _ =>
      boot_trial_zero_sample fc hf hinc steps _ w hw
        (sample_residuals_for_zero pick _ i steps hzero))
  rw [htr]
  rw [if_neg (by simp)]
  refine congrArg some (List.map_congr_left (fun s _ => ?_))
  have hvals : (((List.range n_boot).map
        (fun _ => some (predict_loop fc steps w none).2)).map
        (fun t => t.getD [])).map (fun c => c.getD s 0) =
      (List.range n_boot).map (fun _ => (predict_loop fc steps w none).2.getD s 0) := by
    simp [List.map_map]
  rw [hvals]
  have hne : (List.range n_boot).map
      (fun _ => (predict_loop fc steps w none).2.getD s 0) ≠ [] := by
    simp [List.map_eq_nil_iff, List.range_eq_nil, hnb]
  have hcm : ∀ x ∈ (List.range n_boot).map
      (fun _ => (predict_loop fc steps w none).2.getD s 0),
      x = (predict_loop fc steps w none).2.getD s 0 := by
    intro x hx
    obtain ⟨_, _, rfl⟩ := List.mem_map.mp hx
    rfl
  rw [percentile_const 5 _ _ hne hcm (by norm_num) (by norm_num),
    percentile_const 95 _ _ hne hcm (by norm_num) (by norm_num)]

/-- Inversion of a successful `predict_interval` call: the point
predictions, the bands, and how the output is glued from them. -/
theorem predict_interval_ok_inv (pick : ℕ → ℕ → ℕ) (fc : Forecaster) (steps : ℕ)
    (w : List ℚ) (interval : ℚ × ℚ) (n_boot : ℕ) (ins : Bool)
    (out : List (ℚ × ℚ × ℚ))
    (hok : predict_interval pick fc steps (some w) none interval n_boot ins = .ok out) :
    ∃ preds bands,
      (predict fc steps (some w) none).2 = .ok preds ∧
      _estimate_boot_interval pick fc steps w interval n_boot ins = some bands ∧
      out = (preds.zip bands).map (fun p => (p.1, p.2.1, p.2.2)) := by
  unfold predict_interval at hok
  dsimp only at hok
  split_ifs at hok
  unfold predict_interval_go at hok
  cases hp : (predict fc steps (some w) none).2 with
  | error e =>
    rw [hp] at hok
    exact Except.noConfusion hok
  | ok preds =>
    rw [hp] at hok
    cases he : _estimate_boot_interval pick fc steps w interval n_boot ins with
    | none =>
      rw [he] at hok
      exact Except.noConfusion hok
    | some bands =>
      rw [he] at hok
      exact ⟨preds, bands, rfl, rfl, (Except.ok.inj hok).symm⟩

/-- C7 (amended): whenever `predict_interval` with `interval = [5, 95]` and
in-sample residuals returns, every step's band satisfies
`lower_bound ≤ upper_bound`; and when the selected residual collection
consists entirely of zeros, `lower_bound = upper_bound = point prediction`
for every step.  (The claim's stronger containment
`lower ≤ point ≤ upper` under nonzero variance, and the collapse onto the
point prediction under zero variance with a nonzero constant, both fail —
see the counterexample.) -/
theorem C7_interval_bounds (pick : ℕ → ℕ → ℕ) (fc : Forecaster)
    (steps n_boot : ℕ) (w : List ℚ) (out : List (ℚ × ℚ × ℚ))
    (hok : predict_interval pick fc steps (some w) none (5, 95) n_boot true = .ok out) :
    (∀ t ∈ out, t.2.1 ≤ t.2.2) ∧
    ((∀ r ∈ fc.in_sample_residuals.getD [], r = (0 : ℚ)) →
      ∀ t ∈ out, t.2.1 = t.1 ∧ t.2.2 = t.1) := by
  obtain ⟨preds, bands, hp, he, hout⟩ :=
    predict_interval_ok_inv pick fc steps w (5, 95) n_boot true out hok
  constructor
  · intro t ht
    rw [hout] at ht
    obtain ⟨pb, hpb, rfl⟩ := List.mem_map.mp ht
    obtain ⟨vals, hv⟩ := estimate_bands_mem pick fc steps w (5, 95) n_boot true
      bands he pb.2 (List.of_mem_zip hpb).2
    show pb.2.1 ≤ pb.2.2
    rw [hv]
    exact percentile_mono 5 95 vals (by norm_num) (by norm_num) (by norm_num)
  · intro hzero t ht
    obtain ⟨hf, hinc, hst, hw, hpreds⟩ :=
      predict_some_ok_inv fc steps w preds hp
    obtain ⟨hres, hnb⟩ :=
      estimate_some_guard pick fc steps w (5, 95) n_boot true bands he
    have hbands := estimate_boot_zero_residuals pick fc steps n_boot w
      hf hinc hw hnb hres hzero
    rw [he] at hbands
    have hbe : bands = (List.range steps).map (fun s =>
        ((predict_loop fc steps w none).2.getD s 0,
         (predict_loop fc steps w none).2.getD s 0)) := Option.some.inj hbands
    rw [hout] at ht
    obtain ⟨pb, hpb, rfl⟩ := List.mem_map.mp ht
    obtain ⟨j, hj, hjz⟩ := List.mem_iff_getElem.mp hpb
    have hjp : j < preds.length := by
      rw [List.length_zip] at hj
      omega
    have hjb : j < bands.length := by
      rw [List.length_zip] at hj
      omega
    have hjs : j < steps := by
      rw [hbe] at hjb
      simpa using hjb
    have hbj : bands[j] = ((predict_loop fc steps w none).2.getD j 0,
        (predict_loop fc steps w none).2.getD j 0) := by
      rw [List.getElem_of_eq hbe hjb]
      simp
    subst hpreds
    have hpj : (predict_loop fc steps w none).2[j] =
        (predict_loop fc steps w none).2.getD j 0 :=
      (List.getD_eq_getElem _ _ hjp).symm
    rw [List.getElem_zip] at hjz
    rw [← hjz]
    dsimp only
    rw [hbj, hpj]
    exact ⟨rfl, rfl⟩

/-- C7 (counterexample): `fcOneConst` has the zero-variance residual
collection `[1]`.  With window `[0]`, one step and one trial the point
prediction is `0` but both bands are `1`: zero residual variance does not
collapse the band onto the point prediction (and the point prediction is
not contained in `[1, 1]`). -/
theorem C7_interval_counterexample :
    predict_interval pick00 fcOneConst 1 (some [0]) none (5, 95) 1 true =
      .ok [(0, 1, 1)] ∧
    (∀ r ∈ fcOneConst.in_sample_residuals.getD [], r = (1 : ℚ)) ∧
    (1 : ℚ) ≠ 0 := by
  refine ⟨by with_unfolding_all rfl, ?_, by norm_num⟩
  intro r hr
  have : r ∈ [(1 : ℚ)] := hr
  simpa using this

/-- Witness for C7 at `fcOne` (all-zero residuals): the call returns
`[(0, 0, 0)]`, with both conjuncts of the amended claim applying. -/
theorem C7_interval_bounds_witness :
    predict_interval pick00 fcOne 1 (some [0]) none (5, 95) 2 true =
      .ok [(0, 0, 0)] ∧
    ((∀ t ∈ [((0 : ℚ), (0 : ℚ), (0 : ℚ))], t.2.1 ≤ t.2.2) ∧
     ((∀ r ∈ fcOne.in_sample_residuals.getD [], r = (0 : ℚ)) →
       ∀ t ∈ [((0 : ℚ), (0 : ℚ), (0 : ℚ))], t.2.1 = t.1 ∧ t.2.2 = t.1)) := by
  have hok : predict_interval pick00 fcOne 1 (some [0]) none (5, 95) 2 true =
      .ok [(0, 0, 0)] := by with_unfolding_all rfl
  exact ⟨hok, C7_interval_bounds pick00 fcOne 1 2 [0] [(0, 0, 0)] hok⟩

end Skforecast
